import Mathlib

/-!
Verification of the consensus/claim-aggregation core of the
spaceapps-data-parsing repository (`src/advanced_analysis.py`).

The Python source is shallowly embedded as executable Lean definitions:

* `RawClaim` mirrors the claim dictionaries built by
  `ClaimExtractor.extract_from_text` (field `sect` stands for the Python
  field `section`, which is a Lean keyword; `object` stands for `object`).
* `compute_consensus` mirrors `ConsensusAnalyzer.compute_consensus`:
  grouping by `normalized_claim` in dict insertion order, the
  `len(group) < 2` filter, distinct-`paper_id` support counting, the
  score formula `min(100, supporting / len(claims) * 100 * 10)`, the
  badge thresholds of `_get_badge`, and the `group[:5]` evidence cap.
  Python floats are modelled as rationals (`ℚ`); `round(x, 1)` is
  modelled as `round1`.
* The sentence-transformer similarity oracle is a parameter `sim`; the
  source computes a similarity matrix and never reads it, and the
  embedding mirrors that with a dead `let`.
-/

/-- One lexical extraction event, as built by `extract_from_text`
(`advanced_analysis.py`, lines 82–92). `sect` is the Python `section`
field; `confidence` is a Python float, modelled as `ℚ`. -/
structure RawClaim where
  paper_id : String
  sect : String
  sentence : String
  sentence_idx : Nat
  subject : String
  predicate : String
  object : String
  confidence : ℚ
  normalized_claim : String
deriving DecidableEq, Repr, Inhabited

/-- One evidence snippet `{paper_id, sentence, section}` as emitted in
`supporting_snippets` (`advanced_analysis.py`, lines 142–146). -/
structure Snippet where
  paper_id : String
  sentence : String
  sect : String
deriving DecidableEq, Repr, Inhabited

/-- The per-key aggregate dictionary built by `compute_consensus`
(`advanced_analysis.py`, lines 135–150). -/
structure ConsensusRecord where
  claim : String
  supporting_papers : Nat
  contradicting_papers : Nat
  consensus_score : ℚ
  confidence_badge : String
  supporting_snippets : List Snippet
  contradicting_snippets : List Snippet
deriving DecidableEq, Repr, Inhabited

/-- Python `round(x, 1)`: round to one decimal place. Exact decimal
half-ties are rounded up here, where CPython rounds the underlying
binary float to even; the two agree except on exact `.x5` ties. -/
def round1 (x : ℚ) : ℚ := (round (10 * x) : ℤ) / 10

/-- `ConsensusAnalyzer._get_badge(score, count)`
(`advanced_analysis.py`, lines 154–163), verbatim threshold chain. -/
def get_badge (score : ℚ) (count : Nat) : String :=
  if 5 ≤ count ∧ 60 ≤ score then "strong_consensus"
  else if 3 ≤ count ∧ 40 ≤ score then "moderate_consensus"
  else if 2 ≤ count then "weak_consensus"
  else "insufficient_evidence"

/-- Key-insertion step of `defaultdict` iteration order: a Python dict
keeps keys in first-insertion order. -/
def insertKey (ks : List String) (k : String) : List String :=
  if k ∈ ks then ks else ks ++ [k]

/-- The keys of `claim_groups` in Python dict insertion order
(`advanced_analysis.py`, lines 110–113). -/
def keyOrder (claims : List RawClaim) : List String :=
  claims.foldl (fun ks c => insertKey ks c.normalized_claim) []

/-- The member list `claim_groups[k]`: all claims with this
`normalized_claim`, in input order (list `append` order in the source). -/
def groupOf (claims : List RawClaim) (k : String) : List RawClaim :=
  claims.filter (fun c => c.normalized_claim == k)

/-- Reduction of a group member to the snippet dict
(`advanced_analysis.py`, lines 142–146). -/
def toSnippet (c : RawClaim) : Snippet :=
  { paper_id := c.paper_id, sentence := c.sentence, sect := c.sect }

/-- Body of the per-group loop of `compute_consensus`
(`advanced_analysis.py`, lines 129–150): distinct `paper_id` count,
score `min(100, supporting / total * 100 * 10)`, badge from the
unrounded score, first-5 snippets. `total` is `len(claims)`. -/
def mkRecord (total : Nat) (group : List RawClaim) : ConsensusRecord :=
  let paper_ids := (group.map (fun c => c.paper_id)).dedup
  let supporting := paper_ids.length
  let consensus_score : ℚ := min 100 ((supporting : ℚ) / (total : ℚ) * 100 * 10)
  { claim := group.headI.subject ++ " " ++ group.headI.predicate ++ " " ++ group.headI.object
    supporting_papers := supporting
    contradicting_papers := 0
    consensus_score := round1 consensus_score
    confidence_badge := get_badge consensus_score supporting
    supporting_snippets := (group.take 5).map toSnippet
    contradicting_snippets := [] }

/-- `ConsensusAnalyzer.compute_consensus` (`advanced_analysis.py`,
lines 104–152). `sim` is the sentence-embedding similarity oracle
(`self.model.encode` + `cosine_similarity`); the source binds the
matrix (lines 116–121) and never reads it, mirrored by the dead `let`.
The output association list stands for the Python dict
`consensus_data` in insertion order. -/
def compute_consensus (sim : List String → List (List ℚ))
    (claims : List RawClaim) : List (String × ConsensusRecord) :=
  if claims.isEmpty then []
  else
    let unique_sentences := (claims.map (fun c => c.sentence)).dedup
    let _similarity_matrix :=
      if 1 < unique_sentences.length then sim unique_sentences else [[1]]
    (keyOrder claims).filterMap (fun k =>
      let group := groupOf claims k
      if group.length < 2 then none
      else some (k, mkRecord claims.length group))

/-- A concrete similarity oracle used for concrete evaluations. -/
def simZero : List String → List (List ℚ) := fun _ => [[0]]

/-- The persisted `analysis/claims.json` artifact written by
`run_advanced_analysis` (`advanced_analysis.py`, lines 377–382). -/
structure ClaimsArtifact where
  total_claims : Nat
  unique_claims : Nat
  claims : List (String × ConsensusRecord)
deriving DecidableEq, Repr

/-- The artifact contents: `total_claims = len(all_claims)`,
`unique_claims = len(consensus_data)`, `claims = consensus_data`. -/
def claimsArtifact (sim : List String → List (List ℚ))
    (all_claims : List RawClaim) : ClaimsArtifact :=
  let consensus_data := compute_consensus sim all_claims
  { total_claims := all_claims.length
    unique_claims := consensus_data.length
    claims := consensus_data }

/-- Rank of a confidence label in the order
`insufficient_evidence < weak_consensus < moderate_consensus <
strong_consensus`. -/
def labelRank (l : String) : Nat :=
  if l == "strong_consensus" then 3
  else if l == "moderate_consensus" then 2
  else if l == "weak_consensus" then 1
  else 0

/-- Modelled from the spec's wording of the labeling rules (§4.2 step 3
of the spec, first match wins), for comparison with the source's
`get_badge`. -/
def confidenceLabelSpec (supporting_sources : Nat) (consensus_score : ℚ) : String :=
  if 5 ≤ supporting_sources ∧ 60 ≤ consensus_score then "strong_consensus"
  else if 3 ≤ supporting_sources ∧ 40 ≤ consensus_score then "moderate_consensus"
  else if 2 ≤ supporting_sources then "weak_consensus"
  else "insufficient_evidence"

/-- Modelled from the spec: C6 reads the evidence list as "the first 5
members of the group in most-recent-first insertion order", i.e. the
group reordered most-recent-first, then capped at 5 and reduced. -/
def evidenceMostRecentFirst (group : List RawClaim) : List Snippet :=
  (group.reverse.take 5).map toSnippet

/-- Concrete claim from source "A" with key `x_reduces_y`. -/
def cA : RawClaim :=
  ⟨"A", "results", "s one", 0, "x", "reduces", "y", 7/10, "x_reduces_y"⟩

/-- Concrete claim from source "B" with the same key as `cA`. -/
def cB : RawClaim :=
  ⟨"B", "results", "s two", 0, "x", "reduces", "y", 7/10, "x_reduces_y"⟩

/-- Second concrete claim from source "A", same key as `cA`. -/
def cA2 : RawClaim :=
  ⟨"A", "results", "s three", 1, "x", "reduces", "y", 7/10, "x_reduces_y"⟩

/-- Third concrete claim from source "A", same key as `cA`. -/
def cA3 : RawClaim :=
  ⟨"A", "results", "s four", 2, "x", "reduces", "y", 7/10, "x_reduces_y"⟩

/-- Python regex `\w` (word character), ASCII model: letter, digit or
underscore. -/
def isWordChar (c : Char) : Bool := c.isAlphanum || c == '_'

/-- Python regex `\s` (whitespace character). -/
def isSpaceChar (c : Char) : Bool := c.isWhitespace

/-- The character class `[\w\s]` used by the `<phrase>` captures of the
claim patterns (`advanced_analysis.py`, lines 53–62). -/
def isPhraseChar (c : Char) : Bool := isWordChar c || isSpaceChar c

/-- Length of the longest prefix of `cs` whose characters satisfy `p`. -/
def maxRun (p : Char → Bool) (cs : List Char) : Nat := (cs.takeWhile p).length

/-- Candidate consumption lengths for a lazy repetition `X{lo,hi}?` of a
character class at the current position, in the order a backtracking
regex engine tries them: shortest first. -/
def lazyLens (p : Char → Bool) (lo hi : Nat) (cs : List Char) : List Nat :=
  (List.range (hi + 1)).filter (fun n => decide (lo ≤ n ∧ n ≤ maxRun p cs))

/-- Candidate consumption lengths for a greedy repetition `X{lo,hi}`:
longest first. -/
def greedyLens (p : Char → Bool) (lo hi : Nat) (cs : List Char) : List Nat :=
  (lazyLens p lo hi cs).reverse

/-- The causal-pattern alternation
`(causes?|leads? to|results? in|induces?|produces?|increases?|decreases?|reduces?|improves?|enhances?)`
expanded into literal alternatives in backtracking order: alternatives
left to right, and for each trailing `X?` the variant with the optional
character first (greedy `?`). -/
def causalPredicates : List String :=
  ["causes", "cause", "leads to", "lead to", "results in", "result in",
   "induces", "induce", "produces", "produce", "increases", "increase",
   "decreases", "decrease", "reduces", "reduce", "improves", "improve",
   "enhances", "enhance"]

/-- The effect-pattern alternation
`(affects?|influences?|modulates?|regulates?|alters?|modifies?|changes?)`
expanded as in `causalPredicates` (note `modifies?` makes only the final
`s` optional). -/
def effectPredicates : List String :=
  ["affects", "affect", "influences", "influence", "modulates", "modulate",
   "regulates", "regulate", "alters", "alter", "modifies", "modifie",
   "changes", "change"]

/-- The association-pattern alternation
`(is associated with|correlates? with|relates? to|linked to)`. -/
def associationPredicates : List String :=
  ["is associated with", "correlates with", "correlate with",
   "relates to", "relate to", "linked to"]

/-- The finding-pattern alternation
`(showed?|revealed?|demonstrated?|indicated?)` (the `?` makes only the
final `d` optional). -/
def findingPredicates : List String :=
  ["showed", "showe", "revealed", "reveale", "demonstrated", "demonstrate",
   "indicated", "indicate"]

/-- The four compiled patterns of `ClaimExtractor.PATTERNS`
(`advanced_analysis.py`, lines 53–62), each represented by its predicate
alternatives; the shared shape
`([\w\s]{3,30}?)\s+(...)\s+([\w\s]{3,30})` lives in `tryMatchAt`. -/
def PATTERNS : List (List String) :=
  [causalPredicates, effectPredicates, associationPredicates, findingPredicates]

/-- Case-insensitive literal prefix test (`re.IGNORECASE`): `alt` is
lowercase and the text is compared lowercased. -/
def matchesAltAt (alt : List Char) (cs : List Char) : Bool :=
  (cs.take alt.length).map Char.toLower == alt

/-- One `(subject, predicate, object)` capture of a pattern, with the
total number of characters the match consumed. -/
structure RegexMatch where
  subject : String
  predicate : String
  object : String
  matchLen : Nat
deriving DecidableEq, Repr

/-- Match one pattern `([\w\s]{3,30}?)\s+(alt|...)\s+([\w\s]{3,30})` at
the start of `cs`, exploring candidates in the backtracking order of the
Python regex engine: lazy subject (shortest first), greedy `\s+` (longest
first), alternatives left to right, greedy `\s+`, greedy object (longest
first); the first complete match wins. Captured groups keep the original
characters of `cs`. -/
def tryMatchAt (preds : List String) (cs : List Char) : Option RegexMatch :=
  (lazyLens isPhraseChar 3 30 cs).findSome? (fun n1 =>
    let cs1 := cs.drop n1
    (greedyLens isSpaceChar 1 cs1.length cs1).findSome? (fun w1 =>
      let cs2 := cs1.drop w1
      preds.findSome? (fun alt =>
        let altChars := alt.toList
        if matchesAltAt altChars cs2 then
          let cs3 := cs2.drop altChars.length
          (greedyLens isSpaceChar 1 cs3.length cs3).findSome? (fun w2 =>
            let cs4 := cs3.drop w2
            (greedyLens isPhraseChar 3 30 cs4).findSome? (fun n3 =>
              some { subject := String.mk (cs.take n1)
                     predicate := String.mk (cs2.take altChars.length)
                     object := String.mk (cs4.take n3)
                     matchLen := n1 + w1 + altChars.length + w2 + n3 }))
        else none)))

/-- Scan loop of `pattern.findall(sentence)`: try a match at each
position; on a match emit the captured groups and resume after the match
(non-overlapping matches), otherwise advance one character. `fuel`
bounds the scan; the string length suffices since every step consumes at
least one character. -/
def findallGo (preds : List String) : Nat → List Char → List RegexMatch
  | 0, _ => []
  | _ + 1, [] => []
  | fuel + 1, c :: rest =>
    match tryMatchAt preds (c :: rest) with
    | some m => m :: findallGo preds fuel ((c :: rest).drop m.matchLen)
    | none => findallGo preds fuel rest

/-- `pattern.findall(sentence)` for one claim pattern. -/
def findall (preds : List String) (s : String) : List RegexMatch :=
  findallGo preds s.toList.length s.toList

/-- Sentence-terminal punctuation class `[.!?]`. -/
def isTermChar (c : Char) : Bool := c == '.' || c == '!' || c == '?'

/-- Split on maximal runs of `[.!?]`, keeping empty pieces at the edges,
exactly like `re.split(r'[.!?]+', text)`. `fuel` bounds the scan
(the text length suffices). -/
def splitSentencesGo : Nat → List Char → List Char → List (List Char)
  | 0, _, acc => [acc.reverse]
  | _ + 1, [], acc => [acc.reverse]
  | fuel + 1, c :: rest, acc =>
    if isTermChar c then
      acc.reverse :: splitSentencesGo fuel (rest.dropWhile isTermChar) []
    else
      splitSentencesGo fuel rest (c :: acc)

/-- `re.split(r'[.!?]+', text)` (`advanced_analysis.py`, line 70). -/
def splitSentences (text : String) : List String :=
  (splitSentencesGo text.toList.length text.toList []).map String.mk

/-- Python `str.strip()`: drop leading and trailing whitespace. -/
def pyStrip (s : String) : String :=
  String.mk (((s.toList.dropWhile isSpaceChar).reverse.dropWhile isSpaceChar).reverse)

/-- Python `str.lower()` (ASCII model). -/
def pyLower (s : String) : String := String.mk (s.toList.map Char.toLower)

/-- Scan loop of Python `str.split()` with no separator: split on
whitespace runs, discarding empty tokens. -/
def pyTokensGo : Nat → List Char → List Char → List String
  | 0, _, acc => if acc.isEmpty then [] else [String.mk acc.reverse]
  | _ + 1, [], acc => if acc.isEmpty then [] else [String.mk acc.reverse]
  | fuel + 1, c :: rest, acc =>
    if isSpaceChar c then
      if acc.isEmpty then pyTokensGo fuel rest []
      else String.mk acc.reverse :: pyTokensGo fuel rest []
    else pyTokensGo fuel rest (c :: acc)

/-- Python `sentence.split()`: whitespace-separated tokens. -/
def pyTokens (s : String) : List String :=
  pyTokensGo s.toList.length s.toList []

/-- `ClaimExtractor.extract_from_text` (`advanced_analysis.py`, lines
67–95): split into sentences, strip, skip sentences with fewer than 5
tokens, run the four patterns, and emit one `RawClaim` per match with
constant confidence `0.7` and the `subject_predicate_object` key. -/
def extract_from_text (text : String) (paper_id : String) (sect : String) :
    List RawClaim :=
  (splitSentences text).enum.flatMap (fun p =>
    let sentence := pyStrip p.2
    if (pyTokens sentence).length < 5 then []
    else
      PATTERNS.flatMap (fun preds =>
        (findall preds sentence).map (fun m =>
          let subject := pyLower (pyStrip m.subject)
          let predicate := pyLower (pyStrip m.predicate)
          let object := pyLower (pyStrip m.object)
          { paper_id := paper_id
            sect := sect
            sentence := sentence
            sentence_idx := p.1
            subject := subject
            predicate := predicate
            object := object
            confidence := 7/10
            normalized_claim := subject ++ "_" ++ predicate ++ "_" ++ object })))

/-- Concrete input showing the extractor in action. -/
def demoText : String := "abc causes def gh ij"

/-- The single claim extracted from `demoText`. -/
def demoClaim : RawClaim :=
  { paper_id := "P1"
    sect := "full"
    sentence := "abc causes def gh ij"
    sentence_idx := 0
    subject := "abc"
    predicate := "causes"
    object := "def gh ij"
    confidence := 7/10
    normalized_claim := "abc_causes_def gh ij" }

/-- C4: the confidence label function follows the ordered threshold
rules with first match winning: it agrees with the spec's rule list,
and each label is produced exactly when its guard is the first to hold. -/
theorem get_badge_threshold_rules (s : ℚ) (c : Nat) :
    get_badge s c = confidenceLabelSpec c s ∧
    (get_badge s c = "strong_consensus" ↔ (5 ≤ c ∧ 60 ≤ s)) ∧
    (get_badge s c = "moderate_consensus" ↔ (¬(5 ≤ c ∧ 60 ≤ s) ∧ (3 ≤ c ∧ 40 ≤ s))) ∧
    (get_badge s c = "weak_consensus" ↔ (¬(5 ≤ c ∧ 60 ≤ s) ∧ ¬(3 ≤ c ∧ 40 ≤ s) ∧ 2 ≤ c)) ∧
    (get_badge s c = "insufficient_evidence" ↔
      (¬(5 ≤ c ∧ 60 ≤ s) ∧ ¬(3 ≤ c ∧ 40 ≤ s) ∧ ¬(2 ≤ c))) := by
  unfold get_badge confidenceLabelSpec
  split_ifs with h1 h2 h3 <;> refine ⟨rfl, ?_, ?_, ?_, ?_⟩ <;> simp_all

/-- C8: the aggregator output does not depend on the similarity oracle:
any two oracles produce the same mapping on the same claims, because the
similarity matrix is computed but never consulted. -/
theorem compute_consensus_sim_independent
    (sim1 sim2 : List String → List (List ℚ)) (claims : List RawClaim) :
    compute_consensus sim1 claims = compute_consensus sim2 claims := by
  cases claims <;> rfl

theorem mem_compute_consensus {sim : List String → List (List ℚ)}
    {claims : List RawClaim} {k : String} {rec : ConsensusRecord}
    (h : (k, rec) ∈ compute_consensus sim claims) :
    k ∈ keyOrder claims ∧ 2 ≤ (groupOf claims k).length ∧
      rec = mkRecord claims.length (groupOf claims k) := by
  unfold compute_consensus at h
  split at h
  · simp at h
  · rw [List.mem_filterMap] at h
    obtain ⟨a, ha, hfa⟩ := h
    dsimp only at hfa
    split at hfa
    · exact absurd hfa (by simp)
    · rw [Option.some_inj, Prod.mk.injEq] at hfa
      obtain ⟨rfl, rfl⟩ := hfa
      exact ⟨ha, by omega, rfl⟩

/-- C2: for every emitted record, `supporting_papers` is the number of
distinct `source_id` values in its group, never the raw claim count. -/
theorem supporting_papers_distinct_sources
    (sim : List String → List (List ℚ)) (claims : List RawClaim)
    (k : String) (rec : ConsensusRecord)
    (h : (k, rec) ∈ compute_consensus sim claims) :
    rec.supporting_papers =
      ((groupOf claims k).map (fun c => c.paper_id)).toFinset.card := by
  obtain ⟨-, -, hrec⟩ := mem_compute_consensus h
  subst hrec
  simp [mkRecord, List.card_toFinset]

theorem supporting_papers_distinct_sources_witness :
    (mkRecord 2 (groupOf [cA, cB] "x_reduces_y")).supporting_papers =
      ((groupOf [cA, cB] "x_reduces_y").map (fun c => c.paper_id)).toFinset.card :=
  supporting_papers_distinct_sources simZero [cA, cB] "x_reduces_y" _
    (by simp [compute_consensus, keyOrder, insertKey, groupOf, cA, cB])

theorem round1_mono {x y : ℚ} (h : x ≤ y) : round1 x ≤ round1 y := by
  unfold round1
  have hr : round (10 * x) ≤ round (10 * y) := by
    rw [round_eq, round_eq]
    exact Int.floor_le_floor (by linarith)
  exact (div_le_div_iff_of_pos_right (by norm_num)).mpr (by exact_mod_cast hr)

theorem round1_nonneg {x : ℚ} (h : 0 ≤ x) : 0 ≤ round1 x := by
  have h0 : round1 0 = 0 := by simp [round1]
  calc (0:ℚ) = round1 0 := h0.symm
    _ ≤ round1 x := round1_mono h

theorem round1_le_100 {x : ℚ} (h : x ≤ 100) : round1 x ≤ 100 := by
  have h100 : round1 100 = 100 := by norm_num [round1]
  calc round1 x ≤ round1 100 := round1_mono h
    _ = 100 := h100

/-- C3: for every emitted record, `consensus_score` is
`min(100, supporting_sources / total_raw_claims * 1000)` rounded to one
decimal place, with the whole-corpus claim count as denominator, and the
score lies in `[0, 100]`. -/
theorem consensus_score_formula_bound
    (sim : List String → List (List ℚ)) (claims : List RawClaim)
    (k : String) (rec : ConsensusRecord)
    (h : (k, rec) ∈ compute_consensus sim claims) :
    rec.consensus_score =
      round1 (min 100 ((rec.supporting_papers : ℚ) / (claims.length : ℚ) * 1000)) ∧
    0 ≤ rec.consensus_score ∧ rec.consensus_score ≤ 100 := by
  obtain ⟨-, -, hrec⟩ := mem_compute_consensus h
  subst hrec
  have hql : ∀ s t : ℕ, (s : ℚ) / (t : ℚ) * 100 * 10 = (s : ℚ) / (t : ℚ) * 1000 := by
    intro s t; ring
  refine ⟨?_, ?_, ?_⟩
  · simp only [mkRecord, hql]
  · exact round1_nonneg (le_min (by norm_num) (by positivity))
  · exact round1_le_100 (min_le_left _ _)

theorem consensus_score_formula_bound_witness :
    (mkRecord 2 (groupOf [cA, cB] "x_reduces_y")).consensus_score =
      round1 (min 100
        (((mkRecord 2 (groupOf [cA, cB] "x_reduces_y")).supporting_papers : ℚ) /
          (([cA, cB] : List RawClaim).length : ℚ) * 1000)) ∧
    0 ≤ (mkRecord 2 (groupOf [cA, cB] "x_reduces_y")).consensus_score ∧
    (mkRecord 2 (groupOf [cA, cB] "x_reduces_y")).consensus_score ≤ 100 :=
  consensus_score_formula_bound simZero [cA, cB] "x_reduces_y" _
    (by simp [compute_consensus, keyOrder, insertKey, groupOf, cA, cB])

/-- C5: the confidence label is monotone in the support count: with the
score fixed, a larger `supporting_sources` never yields a smaller label
in the order `insufficient_evidence < weak_consensus <
moderate_consensus < strong_consensus`. -/
theorem get_badge_mono_in_count (s : ℚ) (c1 c2 : Nat) (h : c1 ≤ c2) :
    labelRank (get_badge s c1) ≤ labelRank (get_badge s c2) := by
  have m5 : 5 ≤ c1 → 5 ≤ c2 := fun hh => hh.trans h
  have m3 : 3 ≤ c1 → 3 ≤ c2 := fun hh => hh.trans h
  have m2 : 2 ≤ c1 → 2 ≤ c2 := fun hh => hh.trans h
  unfold get_badge
  split_ifs <;> first | decide | tauto

theorem get_badge_mono_in_count_witness :
    2 ≤ 5 ∧ labelRank (get_badge 60 2) ≤ labelRank (get_badge 60 5) :=
  ⟨by decide, get_badge_mono_in_count 60 2 5 (by decide)⟩

/-- C6 counterexample: on two claims from sources "A" then "B" with one
shared key, the emitted evidence list is the group in first-to-last
insertion order, not the most-recent-first order the claim states. -/
theorem supporting_snippets_not_most_recent_first :
    (compute_consensus simZero [cA, cB]).map
        (fun kr => kr.2.supporting_snippets) =
      [[toSnippet cA, toSnippet cB]] ∧
    [toSnippet cA, toSnippet cB] ≠
      evidenceMostRecentFirst (groupOf [cA, cB] "x_reduces_y") := by
  constructor
  · simp [compute_consensus, keyOrder, insertKey, groupOf, mkRecord, cA, cB]
  · simp [evidenceMostRecentFirst, groupOf, toSnippet, cA, cB]

/-- C6 (amended): for every emitted record, the evidence list is the
first 5 members of the group in first-to-last insertion order, each
reduced to `{source_id, sentence, section}`, hence at most 5 entries. -/
theorem supporting_snippets_first_five
    (sim : List String → List (List ℚ)) (claims : List RawClaim)
    (k : String) (rec : ConsensusRecord)
    (h : (k, rec) ∈ compute_consensus sim claims) :
    rec.supporting_snippets = ((groupOf claims k).take 5).map toSnippet ∧
    rec.supporting_snippets.length ≤ 5 := by
  obtain ⟨-, -, hrec⟩ := mem_compute_consensus h
  subst hrec
  refine ⟨rfl, ?_⟩
  simp only [mkRecord, List.length_map, List.length_take]
  omega

theorem supporting_snippets_first_five_witness :
    (mkRecord 2 (groupOf [cA, cB] "x_reduces_y")).supporting_snippets =
      ((groupOf [cA, cB] "x_reduces_y").take 5).map toSnippet ∧
    (mkRecord 2 (groupOf [cA, cB] "x_reduces_y")).supporting_snippets.length ≤ 5 :=
  supporting_snippets_first_five simZero [cA, cB] "x_reduces_y" _
    (by simp [compute_consensus, keyOrder, insertKey, groupOf, cA, cB])

/-- C7: the aggregator is total: the empty claim list yields the empty
mapping and the artifact `{total_claims: 0, unique_claims: 0, claims: {}}`,
and the score denominator `len(claims)` is positive whenever any record
is emitted, so no division by zero occurs. -/
theorem compute_consensus_total_empty (sim : List String → List (List ℚ)) :
    claimsArtifact sim [] = ⟨0, 0, []⟩ ∧
    ∀ (claims : List RawClaim) (kr : String × ConsensusRecord),
      kr ∈ compute_consensus sim claims → 0 < claims.length := by
  refine ⟨rfl, ?_⟩
  intro claims kr h
  cases claims with
  | nil => simp [compute_consensus] at h
  | cons c cs => simp

theorem compute_consensus_total_empty_witness :
    claimsArtifact simZero [] = ⟨0, 0, []⟩ ∧ 0 < ([cA, cB] : List RawClaim).length :=
  ⟨(compute_consensus_total_empty simZero).1,
   (compute_consensus_total_empty simZero).2 [cA, cB]
     ("x_reduces_y", mkRecord 2 (groupOf [cA, cB] "x_reduces_y"))
     (by simp [compute_consensus, keyOrder, insertKey, groupOf, cA, cB])⟩

/-- C1 (code evaluated at the failing input): three claims that all come
from source "A" and share one key are NOT dropped — the source filters on
raw group size (`len(group) < 2`), not on distinct sources — and the
emitted record has `supporting_papers = 1` with the badge
`insufficient_evidence`, which the claim says can never appear. -/
theorem same_source_group_not_dropped :
    (compute_consensus simZero [cA, cA2, cA3]).map
        (fun kr => (kr.1, kr.2.supporting_papers, kr.2.confidence_badge)) =
      [("x_reduces_y", 1, "insufficient_evidence")] := by
  simp [compute_consensus, keyOrder, insertKey, groupOf, mkRecord, get_badge,
    cA, cA2, cA3]

theorem mem_insertKey_self (ks : List String) (k : String) : k ∈ insertKey ks k := by
  unfold insertKey
  split
  · assumption
  · simp

theorem mem_insertKey_of_mem {ks : List String} {a : String} (k : String)
    (h : a ∈ ks) : a ∈ insertKey ks k := by
  unfold insertKey
  split
  · exact h
  · exact List.mem_append_left _ h

theorem insertKey_nodup {ks : List String} (k : String) (h : ks.Nodup) :
    (insertKey ks k).Nodup := by
  unfold insertKey
  split
  · exact h
  · simp_all [List.nodup_append]

theorem foldl_insertKey_nodup (claims : List RawClaim) :
    ∀ ks : List String, ks.Nodup →
      (claims.foldl (fun ks c => insertKey ks c.normalized_claim) ks).Nodup := by
  induction claims with
  | nil => intro ks h; exact h
  | cons c cs ih =>
    intro ks h
    exact ih _ (insertKey_nodup _ h)

theorem keyOrder_nodup (claims : List RawClaim) : (keyOrder claims).Nodup :=
  foldl_insertKey_nodup claims [] List.nodup_nil

theorem mem_foldl_insertKey_of_mem (claims : List RawClaim) :
    ∀ ks : List String, ∀ a ∈ ks,
      a ∈ claims.foldl (fun ks c => insertKey ks c.normalized_claim) ks := by
  induction claims with
  | nil => intro ks a h; exact h
  | cons c cs ih =>
    intro ks a h
    exact ih _ a (mem_insertKey_of_mem _ h)

theorem key_mem_keyOrder (claims : List RawClaim) :
    ∀ c ∈ claims, c.normalized_claim ∈ keyOrder claims := by
  unfold keyOrder
  generalize [] = ks
  induction claims generalizing ks with
  | nil => intro c h; exact absurd h (List.not_mem_nil c)
  | cons d ds ih =>
    intro c h
    rcases List.mem_cons.mp h with rfl | h2
    · exact mem_foldl_insertKey_of_mem ds _ _ (mem_insertKey_self ks c.normalized_claim)
    · exact ih _ c h2

theorem sum_map_ite_eq_zero {K : List String} {a : String} (h : a ∉ K) :
    (K.map (fun k => if a == k then 1 else 0)).sum = 0 := by
  induction K with
  | nil => rfl
  | cons k K ih =>
    simp only [List.mem_cons, not_or] at h
    have h1 : (a == k) = false := beq_eq_false_iff_ne.mpr h.1
    rw [List.map_cons, List.sum_cons, h1, if_neg (by simp), ih h.2]

theorem sum_map_ite_eq_one {K : List String} {a : String}
    (hnd : K.Nodup) (hmem : a ∈ K) :
    (K.map (fun k => if a == k then 1 else 0)).sum = 1 := by
  induction K with
  | nil => exact absurd hmem (List.not_mem_nil a)
  | cons k K ih =>
    rcases List.nodup_cons.mp hnd with ⟨hk, hnd2⟩
    rcases List.mem_cons.mp hmem with rfl | h2
    · rw [List.map_cons, List.sum_cons, if_pos (beq_self_eq_true a),
        sum_map_ite_eq_zero hk]
    · have hne : (a == k) = false :=
        beq_eq_false_iff_ne.mpr (fun hh => hk (hh ▸ h2))
      rw [List.map_cons, List.sum_cons, hne, if_neg (by simp), ih hnd2 h2]

theorem sum_map_add_nat (K : List String) (f g : String → Nat) :
    (K.map (fun k => f k + g k)).sum = (K.map f).sum + (K.map g).sum := by
  induction K with
  | nil => rfl
  | cons k K ih => simp [List.map_cons, List.sum_cons, ih]; omega

theorem sum_filter_lengths (K : List String) (l : List RawClaim)
    (hnd : K.Nodup) (hcov : ∀ c ∈ l, c.normalized_claim ∈ K) :
    (K.map (fun k => (l.filter (fun c => c.normalized_claim == k)).length)).sum
      = l.length := by
  induction l with
  | nil => simp
  | cons c l ih =>
    have hc : c.normalized_claim ∈ K := hcov c (List.mem_cons_self c l)
    have hl : ∀ x ∈ l, x.normalized_claim ∈ K :=
      fun x hx => hcov x (List.mem_cons_of_mem c hx)
    have hone : ∀ k, ((c :: l).filter (fun x => x.normalized_claim == k)).length
        = (if c.normalized_claim == k then 1 else 0)
          + (l.filter (fun x => x.normalized_claim == k)).length := by
      intro k
      rw [List.filter_cons]
      split <;> simp_all [Nat.add_comm]
    calc (K.map (fun k => ((c :: l).filter (fun x => x.normalized_claim == k)).length)).sum
        = (K.map (fun k => (if c.normalized_claim == k then 1 else 0)
            + (l.filter (fun x => x.normalized_claim == k)).length)).sum := by
          exact congrArg List.sum (List.map_congr_left (fun k _ => hone k))
      _ = (K.map (fun k => if c.normalized_claim == k then 1 else 0)).sum
            + (K.map (fun k => (l.filter (fun x => x.normalized_claim == k)).length)).sum :=
          sum_map_add_nat K _ _
      _ = 1 + l.length := by rw [sum_map_ite_eq_one hnd hc, ih hl]
      _ = (c :: l).length := by simp [Nat.add_comm]

theorem two_mul_filterMap_le (claims : List RawClaim) (K : List String) :
    2 * (K.filterMap (fun k =>
        if (groupOf claims k).length < 2 then none
        else some (k, mkRecord claims.length (groupOf claims k)))).length ≤
      (K.map (fun k => (groupOf claims k).length)).sum := by
  induction K with
  | nil => simp
  | cons k K ih =>
    by_cases hlen : (groupOf claims k).length < 2
    · simp only [List.filterMap_cons, if_pos hlen, List.map_cons, List.sum_cons]
      omega
    · simp only [List.filterMap_cons, if_neg hlen, List.map_cons, List.sum_cons,
        List.length_cons]
      omega

/-- C10: at most half as many consensus records as input claims are
emitted (`unique_claims * 2 <= total_claims`): every emitted group has
at least 2 members and the groups partition the input by key. -/
theorem unique_claims_le_half_total (sim : List String → List (List ℚ))
    (claims : List RawClaim) :
    2 * (compute_consensus sim claims).length ≤ claims.length := by
  unfold compute_consensus
  split
  · simp
  · calc 2 * (((keyOrder claims).filterMap (fun k =>
          if (groupOf claims k).length < 2 then none
          else some (k, mkRecord claims.length (groupOf claims k)))).length)
        ≤ ((keyOrder claims).map (fun k => (groupOf claims k).length)).sum :=
          two_mul_filterMap_le claims (keyOrder claims)
      _ = claims.length :=
          sum_filter_lengths (keyOrder claims) claims (keyOrder_nodup claims)
            (key_mem_keyOrder claims)

theorem maxRun_le_length (p : Char → Bool) (cs : List Char) :
    maxRun p cs ≤ cs.length := by
  unfold maxRun
  induction cs with
  | nil => simp
  | cons c cs ih =>
    rw [List.takeWhile_cons]
    split <;> simp_all

theorem mem_lazyLens {p : Char → Bool} {lo hi : Nat} {cs : List Char} {n : Nat}
    (h : n ∈ lazyLens p lo hi cs) : lo ≤ n ∧ n ≤ hi ∧ n ≤ cs.length := by
  unfold lazyLens at h
  rw [List.mem_filter] at h
  obtain ⟨h1, h2⟩ := h
  rw [List.mem_range] at h1
  simp only [decide_eq_true_eq] at h2
  exact ⟨h2.1, by omega, h2.2.trans (maxRun_le_length p cs)⟩

theorem mem_greedyLens {p : Char → Bool} {lo hi : Nat} {cs : List Char} {n : Nat}
    (h : n ∈ greedyLens p lo hi cs) : lo ≤ n ∧ n ≤ hi ∧ n ≤ cs.length :=
  mem_lazyLens (List.mem_reverse.mp h)

theorem tryMatchAt_bounds {preds : List String} {cs : List Char} {m : RegexMatch}
    (h : tryMatchAt preds cs = some m) :
    3 ≤ m.subject.length ∧ m.subject.length ≤ 30 ∧
    3 ≤ m.object.length ∧ m.object.length ≤ 30 := by
  unfold tryMatchAt at h
  obtain ⟨n1, hn1, h⟩ := List.exists_of_findSome?_eq_some h
  try dsimp only at h
  obtain ⟨w1, hw1, h⟩ := List.exists_of_findSome?_eq_some h
  try dsimp only at h
  obtain ⟨alt, halt, h⟩ := List.exists_of_findSome?_eq_some h
  try dsimp only at h
  split at h
  · obtain ⟨w2, hw2, h⟩ := List.exists_of_findSome?_eq_some h
    try dsimp only at h
    obtain ⟨n3, hn3, h⟩ := List.exists_of_findSome?_eq_some h
    rw [Option.some_inj] at h
    subst h
    obtain ⟨hl1, hh1, hc1⟩ := mem_lazyLens hn1
    obtain ⟨hl3, hh3, hc3⟩ := mem_greedyLens hn3
    refine ⟨?_, ?_, ?_, ?_⟩ <;>
      simp only [String.length, String.mk, List.length_take] <;> omega
  · exact absurd h (by simp)

theorem findallGo_bounds {preds : List String} :
    ∀ (fuel : Nat) (cs : List Char) (m : RegexMatch),
      m ∈ findallGo preds fuel cs →
      3 ≤ m.subject.length ∧ m.subject.length ≤ 30 ∧
      3 ≤ m.object.length ∧ m.object.length ≤ 30 := by
  intro fuel
  induction fuel with
  | zero =>
    intro cs m h
    exact absurd h (List.not_mem_nil m)
  | succ fuel ih =>
    intro cs m h
    match cs with
    | [] => exact absurd h (List.not_mem_nil m)
    | c :: rest =>
      cases htm : tryMatchAt preds (c :: rest) with
      | some m0 =>
        rw [findallGo, htm] at h
        rcases List.mem_cons.mp h with rfl | h2
        · exact tryMatchAt_bounds htm
        · exact ih _ _ h2
      | none =>
        rw [findallGo, htm] at h
        exact ih _ _ h

theorem findall_bounds {preds : List String} {s : String} {m : RegexMatch}
    (h : m ∈ findall preds s) :
    3 ≤ m.subject.length ∧ m.subject.length ≤ 30 ∧
    3 ≤ m.object.length ∧ m.object.length ≤ 30 :=
  findallGo_bounds _ _ m h

/-- C9: every claim the extractor emits comes from a (stripped) sentence
with at least 5 whitespace-separated tokens, carries the constant
confidence 0.7, and its subject/object fields are the strip-lowercase of
captured phrases whose raw length is between 3 and 30 characters. -/
theorem extract_sentence_confidence_phrase_bounds
    (text paper_id sect : String) (c : RawClaim)
    (h : c ∈ extract_from_text text paper_id sect) :
    5 ≤ (pyTokens c.sentence).length ∧
    c.confidence = 7/10 ∧
    ∃ preds ∈ PATTERNS, ∃ m ∈ findall preds c.sentence,
      3 ≤ m.subject.length ∧ m.subject.length ≤ 30 ∧
      3 ≤ m.object.length ∧ m.object.length ≤ 30 ∧
      c.subject = pyLower (pyStrip m.subject) ∧
      c.predicate = pyLower (pyStrip m.predicate) ∧
      c.object = pyLower (pyStrip m.object) := by
  unfold extract_from_text at h
  rw [List.mem_flatMap] at h
  obtain ⟨p, hp, h⟩ := h
  dsimp only at h
  split at h
  · exact absurd h (List.not_mem_nil c)
  · rename_i hlen
    rw [List.mem_flatMap] at h
    obtain ⟨preds, hpreds, h⟩ := h
    rw [List.mem_map] at h
    obtain ⟨m, hm, rfl⟩ := h
    obtain ⟨hb1, hb2, hb3, hb4⟩ := findall_bounds hm
    exact ⟨by dsimp only; omega, rfl, preds, hpreds, m, hm, hb1, hb2, hb3, hb4, rfl, rfl, rfl⟩

set_option maxRecDepth 20000 in
theorem extract_sentence_confidence_phrase_bounds_witness :
    5 ≤ (pyTokens demoClaim.sentence).length ∧
    demoClaim.confidence = 7/10 ∧
    ∃ preds ∈ PATTERNS, ∃ m ∈ findall preds demoClaim.sentence,
      3 ≤ m.subject.length ∧ m.subject.length ≤ 30 ∧
      3 ≤ m.object.length ∧ m.object.length ≤ 30 ∧
      demoClaim.subject = pyLower (pyStrip m.subject) ∧
      demoClaim.predicate = pyLower (pyStrip m.predicate) ∧
      demoClaim.object = pyLower (pyStrip m.object) :=
  extract_sentence_confidence_phrase_bounds demoText "P1" "full" demoClaim
    (by rw [(rfl : extract_from_text demoText "P1" "full" = [demoClaim])]
        exact List.mem_singleton.mpr rfl)
